import Mathlib

/-!
Shallow embedding of the detect_version repository (Emetophobe/detect_version).

The embedding follows the Python sources:
  * src/version.py      : Version, valid_version, as_tuple, comparison
  * src/requirement.py  : Requirement, ordering, equality via str()
  * src/changelog.py    : Changelog loading and get_requirement
  * src/analyzer.py     : Analyzer visitor state and the claim-relevant visits
  * find_changes.py     : find_changes and fnmatch-style pattern matching

Python dicts are modelled as insertion-ordered association lists; JSON values
as a small inductive type; raised exceptions as an Except monad.  The four
changelog data files (data/*.json) are external inputs to the program, so the
model takes the loaded data as parameters; small sample data sets are defined
for concrete evaluations.
-/

namespace DetectVersion

/-- Values appearing in a loaded JSON changelog entry: strings, string lists
(for the optional items field) and null. -/
inductive JVal where
  | jstr (s : String)
  | jlist (l : List String)
  | jnull
deriving DecidableEq, Repr

/-- A JSON object for one changelog entry, insertion ordered, as produced by
json.load. -/
abbrev Entry := List (String × JVal)

/-- The loaded changelog dictionary: feature name to raw entry. -/
abbrev ChangelogData := List (String × Entry)

/-- Python exceptions that the modelled code can raise. -/
inductive PyErr where
  | valueError (msg : String)
  | typeError (msg : String)
  | attributeError (msg : String)
  | fileNotFoundError
  | jsonDecodeError
deriving DecidableEq, Repr

/-- Python truthiness of an optional string: None and the empty string are
falsy, every other string is truthy. -/
def truthyS : Option String → Bool
  | none => false
  | some s => !s.data.isEmpty

/-! ## src/version.py -/

/-- str.split with separator a dot: on "3.10" gives ["3", "10"], on "" gives
[""], on "3..1" gives ["3", "", "1"], exactly like Python str.split. -/
def splitDot : List Char → List (List Char)
  | [] => [[]]
  | c :: rest =>
    match splitDot rest with
    | [] => [[]]
    | grp :: grps => if c == '.' then [] :: grp :: grps else (c :: grp) :: grps

/-- Decimal digit value of a character, none for non-digits. -/
def digitVal (c : Char) : Option Nat :=
  if '0' ≤ c && c ≤ '9' then some (c.toNat - '0'.toNat) else none

/-- Parse a nonempty run of decimal digits; none otherwise. -/
def parseDigits : List Char → Option Nat
  | [] => none
  | cs => cs.foldl (fun acc c => do
      let a ← acc
      let d ← digitVal c
      pure (a * 10 + d)) (some 0)

/-- Model of int(s) for the version components handled here: an optional sign
followed by digits; none models the ValueError int raises on anything else. -/
def pyInt : List Char → Option Int
  | '-' :: rest => (parseDigits rest).map (fun n => -(n : Int))
  | '+' :: rest => (parseDigits rest).map (fun n => (n : Int))
  | cs => (parseDigits cs).map (fun n => (n : Int))

/-- Apply a fallible conversion to every element, failing as soon as one
element fails: the semantics of the generator over int(s) in valid_version. -/
def mapOpt {α β : Type} (f : α → Option β) : List α → Option (List β)
  | [] => some []
  | a :: l =>
    match f a with
    | none => none
    | some b => (mapOpt f l).map (fun bs => b :: bs)

/-- Version.as_tuple: empty or absent version gives the empty tuple, otherwise
the tuple of int(s) over the dot-separated components.  The source only calls
this after valid_version has accepted the string, so every component parses;
components that would make int raise are dropped here (they never occur on
validated input, see as_tuple_of_mapM). -/
def as_tuple (version : Option String) : List Int :=
  match version with
  | none => []
  | some s =>
    if s.data.isEmpty then []
    else ((splitDot s.data).map pyInt).filterMap id

/-- valid_version from src/version.py: empty/None is valid; otherwise every
dot-separated component must parse as an int, there must be two or three of
them, all nonnegative, and the major component must equal 3. -/
def valid_version (version : Option String) : Bool :=
  match version with
  | none => true
  | some s =>
    if s.data.isEmpty then true
    else
      match mapOpt pyInt (splitDot s.data) with
      | none => false
      | some sections =>
        if sections.length < 2 || sections.length > 3 then false
        else if sections.any (fun n => decide (n < 0)) then false
        else sections.head? == some 3

/-- Python tuple comparison on int tuples: elementwise, first difference
decides, a proper prefix is smaller. -/
def tupleLt : List Int → List Int → Bool
  | [], [] => false
  | [], _ :: _ => true
  | _ :: _, [] => false
  | a :: as, b :: bs => if a < b then true else if b < a then false else tupleLt as bs

/-- Version.__lt__: compare the as_tuple projections. -/
def version_lt (a b : Option String) : Bool := tupleLt (as_tuple a) (as_tuple b)

/-- Version a > Version b: Python reflects the missing __gt__ to b.__lt__(a). -/
def version_gt (a b : Option String) : Bool := version_lt b a

/-- Version equality: equality of the as_tuple projections. -/
def version_eq (a b : Option String) : Bool := as_tuple a == as_tuple b

/-- Model of the validating Version constructor: returns the wrapped string or
the ValueError that Version.__init__ raises on an invalid string. -/
def VersionCtor (v : Option String) : Except PyErr (Option String) :=
  if valid_version v then .ok v else .error (.valueError "Invalid version string.")

/-! ## src/requirement.py -/

/-- Requirement: the record built by Requirement.__init__ after its checks. -/
structure Requirement where
  name : String
  added : Option String
  deprecated : Option String
  removed : Option String
  notes : Option String
  items : Option (List String)
deriving DecidableEq, Repr

/-- str(x) for an optional string field: None prints as "None". -/
def pyStrOpt : Option String → String
  | none => "None"
  | some s => s

/-- str(x) for the optional items list.  Python renders list elements with
quotes; the quoting characters are immaterial to the equalities proved here
and are omitted. -/
def pyStrItems : Option (List String) → String
  | none => "None"
  | some l => "[" ++ String.intercalate ", " l ++ "]"

/-- Requirement.__str__: comma-join of the str() of the attribute values in
definition order (name, added, deprecated, removed, notes, items). -/
def Requirement.pyStr (r : Requirement) : String :=
  String.intercalate ", "
    [r.name, pyStrOpt r.added, pyStrOpt r.deprecated, pyStrOpt r.removed,
     pyStrOpt r.notes, pyStrItems r.items]

/-- Requirement.__eq__: string representations compared. -/
def reqEq (a b : Requirement) : Bool := a.pyStr == b.pyStr

/-- Requirement.versions: the (added, deprecated, removed) triple. -/
def Requirement.versions (r : Requirement) : List (Option String) :=
  [r.added, r.deprecated, r.removed]

/-- The loop of Requirement.__lt__ over zipped version triples: some b when a
strict comparison decides, none when the loop falls through to the names. -/
def reqLtAux : List (Option String) → List (Option String) → Option Bool
  | v :: vs, w :: ws =>
    if version_lt v w then some true
    else if version_gt v w then some false
    else reqLtAux vs ws
  | _, _ => none

/-- Requirement.__lt__: version triples compared pairwise as Versions, the
requirement names as final tie-break.  The Version constructor inside the
source loop validates the stored strings; the theorems below about ordering
assume the stored versions valid, which makes the comparison total. -/
def reqLt (a b : Requirement) : Bool :=
  match reqLtAux a.versions b.versions with
  | some r => r
  | none => decide (a.name < b.name)

/-- Requirement construction from a raw JSON entry, i.e. Requirement(**changes).
Binding errors (unexpected or missing keyword arguments) raise TypeError, then
the body raises ValueError unless at least one of added/deprecated/removed is
truthy.  Fields of a JSON type other than the one the program stores there
would only fail much later in Python; the model rejects them at construction,
which no claim exercises. -/
def argNames : List String := ["name", "added", "deprecated", "removed", "notes", "items"]

/-- First value stored under a key of a JSON object. -/
def entryGet (e : Entry) (k : String) : Option JVal :=
  (e.find? (fun p => p.1 == k)).map (fun p => p.2)

/-- Read an optional string-valued field of an entry. -/
def getOptStr (e : Entry) (k : String) : Except PyErr (Option String) :=
  match entryGet e k with
  | none => .ok none
  | some (.jstr s) => .ok (some s)
  | some .jnull => .ok none
  | some (.jlist _) => .error (.typeError "unexpected list value")

/-- Read the optional list-valued items field of an entry. -/
def getOptList (e : Entry) (k : String) : Except PyErr (Option (List String)) :=
  match entryGet e k with
  | none => .ok none
  | some (.jlist l) => .ok (some l)
  | some .jnull => .ok none
  | some (.jstr _) => .error (.typeError "unexpected string value")

def mkRequirement (e : Entry) : Except PyErr Requirement :=
  if e.any (fun p => !(argNames.contains p.1)) then
    .error (.typeError "unexpected keyword argument")
  else
    match entryGet e "name" with
    | none => .error (.typeError "missing required argument name")
    | some (.jstr nm) => do
      let added ← getOptStr e "added"
      let dep ← getOptStr e "deprecated"
      let rem ← getOptStr e "removed"
      let nts ← getOptStr e "notes"
      let its ← getOptList e "items"
      if !(truthyS added || truthyS dep || truthyS rem) then
        .error (.valueError "Require atleast one version (added, deprecated, or removed).")
      else
        .ok ⟨nm, added, dep, rem, nts, its⟩
    | some _ => .error (.typeError "name must be a string")

/-! ## src/changelog.py -/

/-- The external data source handed to Changelog.__init__: the file may be
missing (open raises FileNotFoundError), malformed (json.load raises
JSONDecodeError), or parse to a dictionary. -/
inductive Source where
  | missing
  | malformed
  | ok (data : ChangelogData)

/-- Changelog.__init__: opens and json-loads the source and stores the result
as is.  No entry of the loaded dictionary is validated here. -/
def changelogInit : Source → Except PyErr ChangelogData
  | .missing => .error .fileNotFoundError
  | .malformed => .error .jsonDecodeError
  | .ok data => .ok data

/-- dict.get(feature, None) on the changelog dictionary. -/
def dictGet (cl : ChangelogData) (k : String) : Option Entry :=
  (cl.find? (fun p => p.1 == k)).map (fun p => p.2)

/-- Changelog.get_requirement: the walrus test is Python truthiness, so both a
missing entry and an empty entry give None; otherwise Requirement(**changes)
is built, which can raise. -/
def get_requirement (cl : ChangelogData) (feature : String) : Except PyErr (Option Requirement) :=
  match dictGet cl feature with
  | none => .ok none
  | some changes =>
    if changes.isEmpty then .ok none
    else (mkRequirement changes).map some

/-! ## src/constants.py (the constants the claim-relevant paths use) -/

namespace Constants

def GENERIC_TYPE_HINTS : String := "type hinting generics"

def UNION_TYPE_HINTING : String := "union type operator"

def AITER_AND_ANEXT : String := "aiter and anext"

end Constants

/-! ## src/analyzer.py -/

/-- The expression nodes of the target AST that the claim-relevant visitor
paths inspect: names, attribute accesses, calls, tuples, subscripts and
binary operations (annotations). -/
inductive Expr where
  | ename (id : String)
  | eattr (value : Expr) (attr : String)
  | ecall (func : Expr) (args : List Expr)
  | etuple (elts : List Expr)
  | esub (value : Expr) (slice : Expr)
  | ebinop (left : Expr) (right : Expr)

/-- The statement nodes needed by the claims: import, from-import, expression
statements and raise statements. -/
inductive Stmt where
  | simport (names : List String)
  | simportFrom (module : String) (names : List String)
  | sexpr (e : Expr)
  | sraise (exc : Option Expr)

/-- Analyzer state: the four loaded changelogs and the mutable accumulation
fields of Analyzer.__init__.  detected_version is Optional because
update_version assigns the raw version argument, typed Optional upstream. -/
structure AnalyzerState where
  detected_version : Option String
  features : ChangelogData
  exceptions : ChangelogData
  functions : ChangelogData
  modules : ChangelogData
  imported : List (String × String)
  language_requirements : List (String × Requirement)
  module_requirements : List (String × Requirement)
deriving DecidableEq, Repr

/-- Analyzer.__init__ with the four changelog data sets already loaded from
their JSON files (the files are external inputs to the program). -/
def initState (features exceptions functions modules : ChangelogData) : AnalyzerState :=
  { detected_version := some "3.0"
    features := features
    exceptions := exceptions
    functions := functions
    modules := modules
    imported := []
    language_requirements := []
    module_requirements := [] }

/-- Python dict assignment d[k] = v: overwrite in place when the key exists,
append otherwise. -/
def dictSet {α : Type} (d : List (String × α)) (k : String) (v : α) : List (String × α) :=
  if d.any (fun p => p.1 == k) then
    d.map (fun p => if p.1 == k then (k, v) else p)
  else d ++ [(k, v)]

/-- Membership of a key in one of the requirement maps (feature in dict.keys()). -/
def hasKey {α : Type} (d : List (String × α)) (k : String) : Bool :=
  d.any (fun p => p.1 == k)

/-- Analyzer.update_version: construct Versions for the argument and the
current detected_version (each construction may raise ValueError), and assign
the argument when it compares strictly greater. -/
def update_version (st : AnalyzerState) (version : Option String) : Except PyErr AnalyzerState := do
  let v ← VersionCtor version
  let d ← VersionCtor st.detected_version
  if version_gt v d then
    pure { st with detected_version := version }
  else
    pure st

/-- Analyzer.add_language_requirement: None requirement is a no-op; a present
key is a no-op; otherwise update the version and append the entry. -/
def add_language_requirement (st : AnalyzerState) (feature : String)
    (requirement : Option Requirement) : Except PyErr AnalyzerState :=
  match requirement with
  | none => .ok st
  | some r =>
    if hasKey st.language_requirements feature then .ok st
    else do
      let st1 ← update_version st r.added
      .ok { st1 with language_requirements := st1.language_requirements ++ [(feature, r)] }

/-- Analyzer.add_module_requirement: same policy on the module map. -/
def add_module_requirement (st : AnalyzerState) (name : String)
    (requirement : Option Requirement) : Except PyErr AnalyzerState :=
  match requirement with
  | none => .ok st
  | some r =>
    if hasKey st.module_requirements name then .ok st
    else do
      let st1 ← update_version st r.added
      .ok { st1 with module_requirements := st1.module_requirements ++ [(name, r)] }

/-- Analyzer.add_feature_requirement: look the fixed feature name up in the
language changelog; a miss raises ValueError. -/
def add_feature_requirement (st : AnalyzerState) (feature : String) : Except PyErr AnalyzerState := do
  match ← get_requirement st.features feature with
  | some r => add_language_requirement st feature (some r)
  | none => .error (.valueError "Could not find a requirement for the feature.")

/-- Analyzer._check_module: walrus on the modules changelog lookup. -/
def check_module (st : AnalyzerState) (name : String) : Except PyErr AnalyzerState := do
  match ← get_requirement st.modules name with
  | some r => add_module_requirement st name (some r)
  | none => .ok st

/-- Analyzer._check_exception. -/
def check_exception (st : AnalyzerState) (exc : String) : Except PyErr AnalyzerState := do
  match ← get_requirement st.exceptions exc with
  | some r => add_language_requirement st exc (some r)
  | none => .ok st

/-- Analyzer._check_function, with the aiter/anext merge special case. -/
def check_function (st : AnalyzerState) (function : String) : Except PyErr AnalyzerState := do
  match ← get_requirement st.functions function with
  | some r =>
    let function := if function == "aiter" || function == "anext" then
      Constants.AITER_AND_ANEXT else function
    add_language_requirement st function (some r)
  | none => .ok st

/-- Analyzer._get_attribute_name: Name gives its id, Attribute concatenates
recursively with a dot, anything else gives the empty string. -/
def get_attribute_name : Expr → String
  | .ename id => id
  | .eattr value attr => get_attribute_name value ++ "." ++ attr
  | _ => ""

/-- Python str.startswith: prefix test on the characters. -/
def pyStartswith (s p : String) : Bool := p.data.isPrefixOf s.data

mutual

/-- The visitor dispatch on expression nodes, mirroring ast.NodeVisitor:
visit_Attribute and visit_Call run their checks and then generic_visit
recurses into the children; every other expression only recurses. -/
def visitExpr (st : AnalyzerState) : Expr → Except PyErr AnalyzerState
  | .ename _ => .ok st
  | .eattr v a => do
    let an := get_attribute_name (.eattr v a)
    let st1 ← (if an.data.isEmpty then .ok st
      else if pyStartswith an "self." then .ok st
      else check_module st an)
    visitExpr st1 v
  | .ecall f args => do
    let st1 ← (match f with
      | .ename id => check_function st id
      | _ => .ok st)
    let st2 ← visitExpr st1 f
    visitExprList st2 args
  | .etuple elts => visitExprList st elts
  | .esub v s => do
    let st1 ← visitExpr st v
    visitExpr st1 s
  | .ebinop l r => do
    let st1 ← visitExpr st l
    visitExpr st1 r

/-- generic_visit over a list of child expressions. -/
def visitExprList (st : AnalyzerState) : List Expr → Except PyErr AnalyzerState
  | [] => .ok st
  | e :: es => do
    let st1 ← visitExpr st e
    visitExprList st1 es

end

/-- Analyzer.visit_Raise: a bare Name exception is checked by id; a Call
exception reads node.exc.func.id, which raises AttributeError whenever the
callee is not a Name node; then generic_visit recurses into the children. -/
def visitRaise (st : AnalyzerState) (exc : Option Expr) : Except PyErr AnalyzerState := do
  let st1 ← (match exc with
    | some (.ename id) => check_exception st id
    | some (.ecall f _) =>
      match f with
      | .ename id => check_exception st id
      | _ => .error (.attributeError "object has no attribute id")
    | _ => .ok st)
  match exc with
  | some e => visitExpr st1 e
  | none => .ok st1

/-- Analyzer.visit_ImportFrom: a wildcard alias checks the module itself;
otherwise the alias is recorded in imported and both the module and the
qualified name are checked. -/
def visitImportFrom (st : AnalyzerState) (module : String) (names : List String) :
    Except PyErr AnalyzerState :=
  names.foldlM (fun st al =>
    if al == "*" then check_module st module
    else do
      let st := { st with imported := dictSet st.imported al module }
      let st ← check_module st module
      check_module st (module ++ "." ++ al)) st

/-- Analyzer.visit_Import: check every imported name. -/
def visitImport (st : AnalyzerState) (names : List String) : Except PyErr AnalyzerState :=
  names.foldlM check_module st

/-- Statement dispatch for the modelled statement forms. -/
def visitStmt (st : AnalyzerState) : Stmt → Except PyErr AnalyzerState
  | .simport names => visitImport st names
  | .simportFrom module names => visitImportFrom st module names
  | .sexpr e => visitExpr st e
  | .sraise exc => visitRaise st exc

/-- Traversal of a whole script, statement by statement. -/
def visitScript (st : AnalyzerState) : List Stmt → Except PyErr AnalyzerState
  | [] => .ok st
  | s :: ss => do
    let st1 ← visitStmt st s
    visitScript st1 ss

/-! ### Annotation resolution (_find_annotations and _check_annotation) -/

/-- An item produced by the _find_annotations generator.  The Name, Attribute,
Subscript and BinOp branches yield strings; the Tuple branch executes
`yield self._find_annotations(element)`, which yields one fresh, unevaluated
generator object per element instead of the element names. -/
inductive YieldItem where
  | yname (s : String)
  | ygen (node : Expr)

/-- Analyzer._find_annotations: yields annotation names and, for BinOp, first
records the union-type-operator feature as a side effect.  Returns the final
state together with the list of yielded items. -/
def find_annotations (st : AnalyzerState) : Expr → Except PyErr (AnalyzerState × List YieldItem)
  | .ename id => .ok (st, [.yname id])
  | .eattr v a => .ok (st, [.yname (get_attribute_name (.eattr v a))])
  | .esub v s => do
    let (st1, ys1) ← find_annotations st v
    let (st2, ys2) ← find_annotations st1 s
    .ok (st2, ys1 ++ ys2)
  | .ebinop l r => do
    let st0 ← add_feature_requirement st Constants.UNION_TYPE_HINTING
    let (st1, ys1) ← find_annotations st0 l
    let (st2, ys2) ← find_annotations st1 r
    .ok (st2, ys1 ++ ys2)
  | .etuple elts => .ok (st, elts.map .ygen)
  | .ecall _ _ => .ok (st, [])

/-- The body of the loop in Analyzer._check_annotation, applied to one yielded
item.  The imported lookup and the membership test in the generic-type-hints
item registry compare the item against strings, so a yielded generator object
never matches either; the registry lookup itself still runs (and can raise on
a missing or items-less entry) regardless of the item. -/
def check_annotation_item (st : AnalyzerState) (item : YieldItem) : Except PyErr AnalyzerState := do
  let resolved : YieldItem :=
    match item with
    | .ygen g => .ygen g
    | .yname n =>
      match st.imported.find? (fun p => p.1 == n) with
      | some p => .yname (p.2 ++ "." ++ n)
      | none => .yname n
  let rOpt ← get_requirement st.features Constants.GENERIC_TYPE_HINTS
  match rOpt with
  | none => .error (.attributeError "NoneType object has no attribute items")
  | some r =>
    match r.items with
    | none => .error (.typeError "argument of type NoneType is not iterable")
    | some its =>
      match resolved with
      | .ygen _ => .ok st
      | .yname n =>
        if its.contains n then add_feature_requirement st Constants.GENERIC_TYPE_HINTS
        else .ok st

/-- Analyzer._check_annotation: iterate the generator and run the loop body on
every yielded item.  A None annotation yields nothing.  Python interleaves the
lazily produced generator effects with the loop body; the model runs the
generator first, which can only permute the insertion order of entries in the
requirement maps, never their content. -/
def check_annotation_node (st : AnalyzerState) : Option Expr → Except PyErr AnalyzerState
  | none => .ok st
  | some node => do
    let (st1, items) ← find_annotations st node
    items.foldlM check_annotation_item st1

/-! ## find_changes.py : fnmatch-style matching and the search -/

/-- Character-class matching inside a bracket expression, with ranges, as the
regex produced by fnmatch.translate interprets them. -/
def classMatch : List Char → Char → Bool
  | a :: '-' :: b :: rest, c => (a ≤ c && c ≤ b) || classMatch rest c
  | a :: rest, c => (a == c) || classMatch rest c
  | [], _ => false

/-- Split a character list at the first closing bracket, none when there is
no closing bracket. -/
def splitRBracket : List Char → Option (List Char × List Char)
  | [] => none
  | c :: rest =>
    if c = ']' then some ([], rest)
    else (splitRBracket rest).map (fun p => (c :: p.1, p.2))

theorem splitRBracket_length {l : List Char} {a b : List Char}
    (h : splitRBracket l = some (a, b)) : b.length < l.length := by
  induction l generalizing a b with
  | nil => simp [splitRBracket] at h
  | cons c rest ih =>
    rw [splitRBracket] at h
    split at h
    · simp at h
      obtain ⟨-, h2⟩ := h
      subst h2
      simp
    · simp at h
      obtain ⟨p1, hp, -⟩ := h
      have := ih hp
      simp only [List.length_cons]
      omega

/-- Scan for the closing bracket of a class, where a closing bracket in the
first position is a literal member of the class. -/
def scanCls : List Char → Option (List Char × List Char)
  | [] => none
  | c :: rest2 =>
    if c = ']' then (splitRBracket rest2).map (fun p => (']' :: p.1, p.2))
    else splitRBracket (c :: rest2)

theorem scanCls_length {l : List Char} {a b : List Char}
    (h : scanCls l = some (a, b)) : b.length < l.length := by
  cases l with
  | nil => simp [scanCls] at h
  | cons c rest2 =>
    rw [scanCls] at h
    split at h
    · simp at h
      obtain ⟨p1, hp, -⟩ := h
      have := splitRBracket_length hp
      simp only [List.length_cons]
      omega
    · exact splitRBracket_length h

/-- Scan the interior of a bracket expression, following fnmatch.translate:
a leading exclamation mark negates, a closing bracket in the first scanned
position is a literal member, and a missing closing bracket means the opening
bracket itself was a literal. -/
def parseCls (ps : List Char) : Option (Bool × List Char × List Char) :=
  match ps with
  | [] => none
  | c :: rest =>
    if c = '!' then (scanCls rest).map (fun p => (true, p.1, p.2))
    else (scanCls (c :: rest)).map (fun p => (false, p.1, p.2))

theorem parseCls_length {ps : List Char} {n : Bool} {cls rest : List Char}
    (h : parseCls ps = some (n, cls, rest)) : rest.length < ps.length := by
  cases ps with
  | nil => simp [parseCls] at h
  | cons c rest0 =>
    rw [parseCls] at h
    split at h
    · simp at h
      obtain ⟨hp, -⟩ := h
      have := scanCls_length hp
      simp only [List.length_cons]
      omega
    · simp at h
      obtain ⟨hp, -⟩ := h
      exact scanCls_length hp

/-- One token of a translated fnmatch pattern. -/
inductive Tok where
  | star
  | qmark
  | lit (c : Char)
  | cls (neg : Bool) (chars : List Char)

/-- Tokenize an fnmatch pattern, mirroring fnmatch.translate. -/
def translateToks : List Char → List Tok
  | [] => []
  | '*' :: ps => .star :: translateToks ps
  | '?' :: ps => .qmark :: translateToks ps
  | '[' :: ps =>
    match h : parseCls ps with
    | none => .lit '[' :: translateToks ps
    | some (neg, cls, rest) => .cls neg cls :: translateToks rest
  | c :: ps => .lit c :: translateToks ps
termination_by ps => ps.length
decreasing_by
  · simp
  · simp
  · simp
  · simpa using Nat.lt_trans (parseCls_length h) (Nat.lt_succ_self _)
  · simp

/-- Full match of a token list against a character list: the semantics of the
anchored regex fnmatch.translate produces. -/
def matchToks : List Tok → List Char → Bool
  | [], [] => true
  | [], _ :: _ => false
  | .star :: ps, s =>
    matchToks ps s ||
      (match s with
       | [] => false
       | _ :: cs => matchToks (.star :: ps) cs)
  | .qmark :: ps, _ :: cs => matchToks ps cs
  | .qmark :: _, [] => false
  | .lit p :: ps, c :: cs => (p == c) && matchToks ps cs
  | .lit _ :: _, [] => false
  | .cls neg cls :: ps, c :: cs => (classMatch cls c != neg) && matchToks ps cs
  | .cls _ _ :: _, [] => false
termination_by ps s => (ps.length, s.length)

/-- fnmatch.fnmatch on a POSIX system (normcase is the identity there). -/
def fnmatch (name pat : String) : Bool := matchToks (translateToks pat.data) name.data

/-- The action filter of find_changes: `if action and action not in
changes.keys()` skips the entry. -/
def actionSkip (changes : Entry) : Option String → Bool
  | none => false
  | some a => !a.data.isEmpty && !(changes.any (fun p => p.1 == a))

/-- The version filter of find_changes: `if version and version not in
changes.values()` skips the entry; the membership test compares the version
string against every value of the entry. -/
def versionSkip (changes : Entry) : Option String → Bool
  | none => false
  | some v => !v.data.isEmpty && !(changes.any (fun p => p.2 == JVal.jstr v))

/-- find_changes from find_changes.py: filter by pattern, action and version,
and store get_requirement results (which are Optional) under the matched
names. -/
def find_changes (changelog : ChangelogData) (pat : String)
    (version action : Option String) : Except PyErr (List (String × Option Requirement)) :=
  changelog.foldlM (fun results p =>
    if !(fnmatch p.1 pat) then pure results
    else if actionSkip p.2 action then pure results
    else if versionSkip p.2 version then pure results
    else do
      let r ← get_requirement changelog p.1
      pure (dictSet results p.1 r)) []

/-! ## Analyzer.report sorting -/

/-- The sort key comparison of Analyzer.report: sorted(requirements.items(),
key=itemgetter(1, 0)) compares the (requirement, feature-name) pairs with
tuple comparison, which consults Requirement.__eq__ and then
Requirement.__lt__ before falling back to the feature names. -/
def keyLt (a b : String × Requirement) : Bool :=
  if reqEq a.2 b.2 then
    if a.1 == b.1 then false else decide (a.1 < b.1)
  else reqLt a.2 b.2

/-- Stable insertion into a sorted list: the new element goes before the first
element it compares strictly less than. -/
def insSorted {α : Type} (lt : α → α → Bool) (x : α) : List α → List α
  | [] => [x]
  | y :: ys => if lt x y then x :: y :: ys else y :: insSorted lt x ys

/-- Python sorted with a strict comparison: stable insertion sort. -/
def pySorted {α : Type} (lt : α → α → Bool) (l : List α) : List α :=
  l.foldl (fun acc x => insSorted lt x acc) []

/-- The ordered list of (feature, requirement) pairs that Analyzer.report
prints for one requirements map. -/
def reportSorted (requirements : List (String × Requirement)) : List (String × Requirement) :=
  pySorted keyLt requirements

/-! ## Sample changelog data for concrete evaluations

The data/*.json files are external inputs of the program (not part of the
sources); these samples follow the entry shape the code consumes. -/

/-- A language.json entry for PEP 585 generic type hints with its item
registry of generic-collection type names. -/
def entGeneric : Entry :=
  [("name", .jstr "type hinting generics"), ("added", .jstr "3.9"),
   ("items", .jlist ["dict", "frozenset", "list", "set", "tuple", "type"])]

/-- A language.json entry for the PEP 604 union type operator. -/
def entUnion : Entry := [("name", .jstr "union type operator"), ("added", .jstr "3.10")]

/-- A sample language changelog with the two annotation-related features. -/
def sampleFeatures : ChangelogData :=
  [(Constants.GENERIC_TYPE_HINTS, entGeneric), (Constants.UNION_TYPE_HINTING, entUnion)]

/-- A modules.json entry for os.path.getsize. -/
def entGetsize : Entry := [("name", .jstr "os.path.getsize"), ("added", .jstr "3.6")]

/-- A sample modules changelog containing exactly os.path.getsize. -/
def sampleModules : ChangelogData := [("os.path.getsize", entGetsize)]

/-- An analyzer over the sample feature and module changelogs. -/
def st0 : AnalyzerState := initState sampleFeatures [] [] sampleModules

/-! ## Helper lemmas on version comparison -/

theorem tupleLt_iff (a b : List Int) : tupleLt a b = true ↔ a < b := by
  induction a generalizing b with
  | nil =>
    cases b with
    | nil => simp [tupleLt]
    | cons y ys =>
      simp [tupleLt]
      exact List.Lex.nil
  | cons x xs ih =>
    cases b with
    | nil => simp [tupleLt]
    | cons y ys =>
      rw [tupleLt]
      by_cases hxy : x < y
      · rw [if_pos hxy]
        exact iff_of_true rfl (List.Lex.rel hxy)
      · by_cases hyx : y < x
        · rw [if_neg hxy, if_pos hyx]
          refine iff_of_false (by simp) ?_
          intro h
          cases h with
          | cons h => exact lt_irrefl _ hyx
          | rel h => exact hxy h
        · have hxe : x = y := le_antisymm (not_lt.mp hyx) (not_lt.mp hxy)
          subst hxe
          rw [if_neg hxy, if_neg hyx, ih]
          constructor
          · exact fun h => List.Lex.cons h
          · intro h
            cases h with
            | cons h => exact h
            | rel h => exact absurd h hxy

theorem tupleLt_nil_right (a : List Int) : tupleLt a [] = false := by
  cases a <;> rfl

theorem mapOpt_filterMap {α β : Type} {f : α → Option β} {l : List α} {ys : List β}
    (h : mapOpt f l = some ys) : (l.map f).filterMap id = ys := by
  induction l generalizing ys with
  | nil =>
    simp [mapOpt] at h
    simp [h]
  | cons a l ih =>
    rw [mapOpt] at h
    cases hfa : f a with
    | none => rw [hfa] at h; exact absurd h (by simp)
    | some b =>
      rw [hfa] at h
      cases hml : mapOpt f l with
      | none => rw [hml] at h; exact absurd h (by simp)
      | some zs =>
        rw [hml] at h
        simp at h
        subst h
        simp [hfa, List.filterMap_cons, ih hml]

/-- On valid nonempty version strings, as_tuple is exactly the successful
componentwise int parse, hence nonempty. -/
theorem as_tuple_valid_nonempty {s : String} (hv : valid_version (some s) = true)
    (hne : s.data ≠ []) : ∃ x rest, as_tuple (some s) = x :: rest := by
  have hie : s.data.isEmpty = false := by
    cases hd : s.data with
    | nil => exact absurd hd hne
    | cons c cs => rfl
  rw [valid_version] at hv
  rw [hie] at hv
  simp only [Bool.false_eq_true, if_false] at hv
  cases hm : mapOpt pyInt (splitDot s.data) with
  | none => rw [hm] at hv; simp at hv
  | some sections =>
    rw [hm] at hv
    have hft : as_tuple (some s) = sections := by
      rw [as_tuple, hie]
      simp only [Bool.false_eq_true, if_false]
      exact mapOpt_filterMap hm
    cases hsec : sections with
    | nil => rw [hsec] at hv; simp at hv
    | cons x rest =>
      exact ⟨x, rest, by rw [hft, hsec]⟩

/-! ## Claim C3: version ordering -/

/-- Claim C3: Version comparison equals integer-tuple comparison of the dotted
components: the comparison function agrees with the lexicographic order on
integer lists, the components parse numerically so that 3.9 sorts before 3.10,
a two-component version is strictly below its three-component extensions
(truncation, not zero padding), and the absent or empty version is strictly
below every valid nonempty version. -/
theorem C3_version_ordering :
    (∀ a b : List Int, tupleLt a b = true ↔ a < b) ∧
    as_tuple (some "3.10") = [3, 10] ∧
    version_lt (some "3.9") (some "3.10") = true ∧
    version_lt (some "3.10") (some "3.10.1") = true ∧
    version_lt (some "3.10.1") (some "3.10") = false ∧
    version_lt (some "3.10") (some "3.10.0") = true ∧
    (∀ s : String, valid_version (some s) = true → s.data ≠ [] →
      version_lt none (some s) = true ∧ version_lt (some "") (some s) = true) := by
  refine ⟨tupleLt_iff, by rfl, by rfl, by rfl, by rfl, by rfl, ?_⟩
  intro s hv hne
  obtain ⟨x, rest, hx⟩ := as_tuple_valid_nonempty hv hne
  constructor
  · rw [version_lt, hx]
    rfl
  · rw [version_lt, hx]
    rfl

/-- Witness for C3 at the concrete version 3.9. -/
theorem C3_version_ordering_witness :
    valid_version (some "3.9") = true ∧ "3.9".data ≠ [] ∧
      version_lt none (some "3.9") = true :=
  ⟨by rfl, by decide, (C3_version_ordering.2.2.2.2.2.2 "3.9" (by rfl) (by decide)).1⟩

/-! ## Claim C6: self-attribute exclusion -/

/-- An attribute chain rooted at the bare name self. -/
def isSelfRooted : Expr → Bool
  | .ename id => id == "self"
  | .eattr v _ => isSelfRooted v
  | _ => false

theorem gan_data (v : Expr) (a : String) :
    (get_attribute_name (.eattr v a)).data = (get_attribute_name v).data ++ '.' :: a.data := by
  show ((get_attribute_name v ++ "." ++ a)).data = _
  rw [String.data_append, String.data_append]
  simp

theorem self_rooted_shape (e : Expr) (h : isSelfRooted e = true) :
    ∃ t, (get_attribute_name e).data = ['s', 'e', 'l', 'f'] ++ t ∧
      (t = [] ∨ ∃ u, t = '.' :: u) := by
  match e with
  | .ename id =>
    have : id = "self" := by simpa [isSelfRooted] using h
    subst this
    exact ⟨[], by simp [get_attribute_name], Or.inl rfl⟩
  | .eattr v a =>
    have hv : isSelfRooted v = true := by simpa [isSelfRooted] using h
    obtain ⟨t, ht, hcase⟩ := self_rooted_shape v hv
    refine ⟨t ++ '.' :: a.data, ?_, Or.inr ?_⟩
    · rw [gan_data, ht]
      simp
    · cases hcase with
      | inl h0 => exact ⟨a.data, by simp [h0]⟩
      | inr h0 =>
        obtain ⟨u, hu⟩ := h0
        exact ⟨u ++ '.' :: a.data, by simp [hu]⟩

theorem self_rooted_startswith (v : Expr) (a : String) (h : isSelfRooted v = true) :
    pyStartswith (get_attribute_name (.eattr v a)) "self." = true := by
  obtain ⟨t, ht, hcase⟩ := self_rooted_shape v h
  rw [pyStartswith, List.isPrefixOf_iff_prefix, gan_data, ht]
  cases hcase with
  | inl h0 =>
    subst h0
    show "self.".data <+: ['s', 'e', 'l', 'f'] ++ [] ++ '.' :: a.data
    exact ⟨a.data, by simp⟩
  | inr h0 =>
    obtain ⟨u, hu⟩ := h0
    subst hu
    show "self.".data <+: ['s', 'e', 'l', 'f'] ++ '.' :: u ++ '.' :: a.data
    exact ⟨u ++ '.' :: a.data, by simp⟩

theorem attr_name_nonempty (v : Expr) (a : String) :
    (get_attribute_name (.eattr v a)).data.isEmpty = false := by
  rw [gan_data]
  cases hd : (get_attribute_name v).data <;> rfl

theorem visitExpr_self_rooted (e : Expr) (st : AnalyzerState) (h : isSelfRooted e = true) :
    visitExpr st e = .ok st := by
  match e with
  | .ename id => rw [visitExpr]
  | .eattr v a =>
    have hv : isSelfRooted v = true := by simpa [isSelfRooted] using h
    rw [visitExpr]
    rw [attr_name_nonempty v a]
    rw [self_rooted_startswith v a hv]
    exact visitExpr_self_rooted v st hv
  | .ecall f args => simp [isSelfRooted] at h
  | .etuple elts => simp [isSelfRooted] at h
  | .esub v s => simp [isSelfRooted] at h
  | .ebinop l r => simp [isSelfRooted] at h

/-- Claim C6: visiting an attribute chain rooted at the local instance
reference self (including its nested Attribute prefixes, which the traversal
also visits) leaves the analyzer state untouched: no modules-changelog lookup
fires and no module requirement is recorded. -/
theorem C6_self_attribute_exclusion (st : AnalyzerState) (e : Expr)
    (h : isSelfRooted e = true) :
    visitExpr st e = .ok st ∧
      (visitExpr st e).map (fun s => s.module_requirements) = .ok st.module_requirements := by
  have h1 := visitExpr_self_rooted e st h
  exact ⟨h1, by rw [h1]; rfl⟩

/-- An analyzer whose modules changelog even contains the literal key
self.cache.get: the exclusion must skip the lookup regardless. -/
def stSelf : AnalyzerState :=
  initState [] [] []
    [("self.cache.get", [("name", .jstr "self.cache.get"), ("added", .jstr "3.6")])]

/-- Witness for C6 on the chain self.cache.get. -/
theorem C6_self_attribute_exclusion_witness :
    isSelfRooted (.eattr (.eattr (.ename "self") "cache") "get") = true ∧
      visitExpr stSelf (.eattr (.eattr (.ename "self") "cache") "get") = .ok stSelf :=
  ⟨by rfl,
   (C6_self_attribute_exclusion stSelf (.eattr (.eattr (.ename "self") "cache") "get")
     (by rfl)).1⟩

/-! ## Claim C10: raise with a dotted exception name -/

/-- Whether an expression is a bare Name node. -/
def isName : Expr → Bool
  | .ename _ => true
  | _ => false

/-- Claim C10: visiting a raise statement whose exception is a call with a
callee that is not a bare Name evaluates node.exc.func.id and raises
AttributeError, aborting the traversal rather than skipping the node. -/
theorem C10_raise_nonname_callee (st : AnalyzerState) (f : Expr) (args : List Expr)
    (h : isName f = false) :
    visitStmt st (.sraise (some (.ecall f args))) =
      .error (.attributeError "object has no attribute id") := by
  cases f with
  | ename id => simp [isName] at h
  | eattr v a => rfl
  | ecall g gargs => rfl
  | etuple elts => rfl
  | esub v s => rfl
  | ebinop l r => rfl

/-- Witness for C10 at raise module.Error(). -/
theorem C10_raise_nonname_callee_witness :
    isName (.eattr (.ename "module") "Error") = false ∧
      visitStmt st0 (.sraise (some (.ecall (.eattr (.ename "module") "Error") []))) =
        .error (.attributeError "object has no attribute id") :=
  ⟨by rfl, C10_raise_nonname_callee st0 (.eattr (.ename "module") "Error") [] (by rfl)⟩

/-! ## Claim C1: import styles and changelog keys -/

/-- The script: from os import path, then a use of path.getsize. -/
def fromImportScript : List Stmt :=
  [.simportFrom "os" ["path"], .sexpr (.eattr (.ename "path") "getsize")]

/-- The script: a direct use of os.path.getsize. -/
def directScript : List Stmt := [.sexpr (.eattr (.eattr (.ename "os") "path") "getsize")]

theorem except_bind_ok {ε α β : Type} (a : α) (f : α → Except ε β) :
    (Except.ok a >>= f) = f a := rfl

theorem except_bind_pure_right {ε α : Type} (x : Except ε α) :
    (x >>= fun a => (Except.ok a : Except ε α)) = x := by cases x <;> rfl

/-- Counterexample to claim C1: over a modules changelog containing exactly
the key os.path.getsize, the from-import script records no module requirement
at all, while the direct-access script records os.path.getsize, so the two
styles of importing do not resolve to the same changelog key. -/
theorem C1_counterexample :
    (visitScript st0 fromImportScript).map (fun s => s.module_requirements.map Prod.fst) =
      .ok [] ∧
    (visitScript st0 directScript).map (fun s => s.module_requirements.map Prod.fst) =
      .ok ["os.path.getsize"] :=
  ⟨rfl, rfl⟩

/-- Amended claim C1: over any modules changelog, the from-import script looks
up exactly the keys os and os.path (at the import statement) and path.getsize
(at the attribute use; the imported mapping is not consulted there), while the
direct script looks up os.path.getsize and then its prefix os.path, so the two
styles can record different module requirements. -/
theorem C1_amended_lookup_keys (cl : ChangelogData) :
    visitScript (initState [] [] [] cl) fromImportScript =
      (do
        let st := { initState [] [] [] cl with imported := [("path", "os")] }
        let st1 ← check_module st "os"
        let st2 ← check_module st1 "os.path"
        check_module st2 "path.getsize") ∧
    visitScript (initState [] [] [] cl) directScript =
      (do
        let st1 ← check_module (initState [] [] [] cl) "os.path.getsize"
        check_module st1 "os.path") := by
  constructor
  · simp only [visitScript, visitStmt, visitImportFrom, visitExpr, List.foldlM,
      bind_assoc, pure_bind, bind_pure, fromImportScript]
    simp +decide [initState, dictSet, get_attribute_name, pyStartswith,
      except_bind_ok, except_bind_pure_right]
  · simp only [visitScript, visitStmt, visitImportFrom, visitExpr, List.foldlM,
      bind_assoc, pure_bind, bind_pure, directScript]
    simp +decide [initState, get_attribute_name, pyStartswith,
      except_bind_ok, except_bind_pure_right]

/-! ## Claim C7: changelog loading and entry validation -/

/-- An entry with a name but none of added, deprecated, removed. -/
def deficientEntry : Entry := [("name", .jstr "badfeat"), ("notes", .jstr "x")]

/-- Changelog data containing the deficient entry. -/
def deficientData : ChangelogData := [("badfeat", deficientEntry)]

/-- Counterexample to claim C7: a changelog whose data contains an entry with
none of added, deprecated and removed populated is constructed successfully;
the ValueError appears only when the deficient entry is looked up. -/
theorem C7_counterexample :
    changelogInit (Source.ok deficientData) = .ok deficientData ∧
    get_requirement deficientData "badfeat" =
      .error (.valueError "Require atleast one version (added, deprecated, or removed).") :=
  ⟨rfl, rfl⟩

/-- Amended claim C7: loading fails exactly for a missing or malformed source;
entries are not validated at load time.  An entry lacking all three version
fields loads fine and only fails, with the ValueError from Requirement
construction, when get_requirement reaches it, while a completely empty entry
is even reported as absent without any error. -/
theorem C7_amended_load_behavior :
    changelogInit Source.missing = .error .fileNotFoundError ∧
    changelogInit Source.malformed = .error .jsonDecodeError ∧
    (∀ d : ChangelogData, changelogInit (Source.ok d) = .ok d) ∧
    get_requirement deficientData "badfeat" =
      .error (.valueError "Require atleast one version (added, deprecated, or removed).") ∧
    get_requirement [("empty", [])] "empty" = .ok none :=
  ⟨rfl, rfl, fun _ => rfl, rfl, rfl⟩

/-! ## Claim C4: the Tuple branch of annotation resolution -/

/-- An analyzer over the sample language changelog only. -/
def stAnn : AnalyzerState := initState sampleFeatures [] [] []

/-- Claim C4 is wrong about the code: on a tuple annotation the source
executes `yield self._find_annotations(element)`, so it yields one unevaluated
generator object per element instead of the element names.  Consequently, for
the annotation Union[list, dict] no element name is ever looked up in the
generic-collection registry (even though list and dict are in it), and for a
union operator inside a tuple element the union-type feature side effect never
runs. -/
theorem C4_tuple_branch_yields_generators :
    find_annotations stAnn (.etuple [.ename "list", .ename "dict"]) =
      .ok (stAnn, [.ygen (.ename "list"), .ygen (.ename "dict")]) ∧
    (check_annotation_node stAnn
        (some (.esub (.ename "Union") (.etuple [.ename "list", .ename "dict"])))).map
        (fun s => s.language_requirements) = .ok [] ∧
    (get_requirement stAnn.features Constants.GENERIC_TYPE_HINTS).map
        (fun r => r.map (fun q => q.items)) =
      .ok (some (some ["dict", "frozenset", "list", "set", "tuple", "type"])) ∧
    (check_annotation_node stAnn
        (some (.esub (.ename "Union") (.etuple [.ebinop (.ename "int") (.ename "str")])))).map
        (fun s => s.language_requirements) = .ok [] :=
  ⟨rfl, rfl, rfl, rfl⟩

/-! ## Claim C2: the accumulation update policy -/

/-- Claim C2: for both requirement maps, an absent requirement is a no-op, an
already-present key is a no-op keeping the first recorded requirement, and
otherwise the requirement is appended with detected_version raised to the
added version exactly when that version compares strictly greater; moreover a
strictly-greater comparison can only be won by a concrete (present, nonempty)
version string. -/
theorem C2_accumulation_policy :
    (∀ (st : AnalyzerState) (k : String),
      add_language_requirement st k none = .ok st ∧
        add_module_requirement st k none = .ok st) ∧
    (∀ (st : AnalyzerState) (k : String) (r : Requirement),
      hasKey st.language_requirements k = true →
        add_language_requirement st k (some r) = .ok st) ∧
    (∀ (st : AnalyzerState) (k : String) (r : Requirement),
      hasKey st.module_requirements k = true →
        add_module_requirement st k (some r) = .ok st) ∧
    (∀ (st : AnalyzerState) (k : String) (r : Requirement),
      hasKey st.language_requirements k = false →
      valid_version r.added = true → valid_version st.detected_version = true →
      add_language_requirement st k (some r) = .ok { st with
        detected_version :=
          if version_gt r.added st.detected_version then r.added else st.detected_version
        language_requirements := st.language_requirements ++ [(k, r)] }) ∧
    (∀ (st : AnalyzerState) (k : String) (r : Requirement),
      hasKey st.module_requirements k = false →
      valid_version r.added = true → valid_version st.detected_version = true →
      add_module_requirement st k (some r) = .ok { st with
        detected_version :=
          if version_gt r.added st.detected_version then r.added else st.detected_version
        module_requirements := st.module_requirements ++ [(k, r)] }) ∧
    (∀ a d : Option String, version_gt a d = true → ∃ s, a = some s ∧ s.data ≠ []) := by
  refine ⟨?_, ?_, ?_, ?_, ?_, ?_⟩
  · intro st k
    exact ⟨rfl, rfl⟩
  · intro st k r h
    simp [add_language_requirement, h]
  · intro st k r h
    simp [add_module_requirement, h]
  · intro st k r h hva hvd
    simp only [add_language_requirement, h, Bool.false_eq_true, if_false,
      update_version, VersionCtor, hva, hvd, if_true, except_bind_ok]
    split <;> rfl
  · intro st k r h hva hvd
    simp only [add_module_requirement, h, Bool.false_eq_true, if_false,
      update_version, VersionCtor, hva, hvd, if_true, except_bind_ok]
    split <;> rfl
  · intro a d h
    rw [version_gt, version_lt] at h
    cases a with
    | none => rw [show as_tuple none = [] from rfl, tupleLt_nil_right] at h; exact absurd h (by simp)
    | some s =>
      refine ⟨s, rfl, ?_⟩
      intro hd
      have : as_tuple (some s) = [] := by
        rw [as_tuple, hd]
        rfl
      rw [this, tupleLt_nil_right] at h
      exact absurd h (by simp)

/-! ## Claim C5: union-type annotations -/

/-- Number of occurrences of a key in a requirement map. -/
def countKey (m : List (String × Requirement)) (k : String) : Nat :=
  (m.filter (fun p => p.1 == k)).length

/-- Processing of a sequence of annotation nodes, as successive visits of
annotated statements run _check_annotation on each annotation. -/
def checkAnnotations (st : AnalyzerState) : List Expr → Except PyErr AnalyzerState
  | [] => .ok st
  | a :: l => do
    let st1 ← check_annotation_node st (some a)
    checkAnnotations st1 l

/-- Whether an expression node is a binary operation (an X | Y annotation). -/
def isBinop : Expr → Bool
  | .ebinop _ _ => true
  | _ => false

/-- The state change of annotation processing: all fields except
detected_version and language_requirements are untouched, and the language
map only grows at the end. -/
def Step (st st' : AnalyzerState) : Prop :=
  st'.features = st.features ∧ st'.imported = st.imported ∧
  st'.modules = st.modules ∧ st'.exceptions = st.exceptions ∧
  st'.functions = st.functions ∧ st'.module_requirements = st.module_requirements ∧
  ∃ suf, st'.language_requirements = st.language_requirements ++ suf

theorem Step.same (st : AnalyzerState) : Step st st :=
  ⟨rfl, rfl, rfl, rfl, rfl, rfl, [], by simp⟩

theorem Step.trans {s1 s2 s3 : AnalyzerState} (h1 : Step s1 s2) (h2 : Step s2 s3) :
    Step s1 s3 := by
  obtain ⟨a1, b1, c1, d1, e1, f1, l1, g1⟩ := h1
  obtain ⟨a2, b2, c2, d2, e2, f2, l2, g2⟩ := h2
  exact ⟨a2.trans a1, b2.trans b1, c2.trans c1, d2.trans d1, e2.trans e1, f2.trans f1,
    l1 ++ l2, by rw [g2, g1, List.append_assoc]⟩

theorem hasKey_append {α : Type} (d l : List (String × α)) (k : String) :
    hasKey (d ++ l) k = (hasKey d k || hasKey l k) := by
  simp [hasKey]

theorem countKey_append (m l : List (String × Requirement)) (k : String) :
    countKey (m ++ l) k = countKey m k + countKey l k := by
  simp [countKey]

theorem hasKey_false_iff_countKey_zero (m : List (String × Requirement)) (k : String) :
    hasKey m k = false ↔ countKey m k = 0 := by
  simp [hasKey, countKey, List.filter_eq_nil_iff, List.any_eq_false, List.length_eq_zero]

theorem hasKey_true_countKey_pos (m : List (String × Requirement)) (k : String)
    (h : hasKey m k = true) : 1 ≤ countKey m k := by
  by_contra hc
  have h0 : countKey m k = 0 := by omega
  rw [← hasKey_false_iff_countKey_zero] at h0
  rw [h] at h0
  exact absurd h0 (by simp)

theorem Step.hasKey_mono {st st' : AnalyzerState} (h : Step st st') {k : String}
    (hk : hasKey st.language_requirements k = true) :
    hasKey st'.language_requirements k = true := by
  obtain ⟨-, -, -, -, -, -, suf, hl⟩ := h
  rw [hl, hasKey_append, hk]
  rfl

/-- The annotation-processing invariant: features changelog fixed, a valid
detected version, at most one record of the union-type feature. -/
def AnnGood (fts : ChangelogData) (st : AnalyzerState) : Prop :=
  st.features = fts ∧ valid_version st.detected_version = true ∧
  countKey st.language_requirements Constants.UNION_TYPE_HINTING ≤ 1

/-- The effect of add_language_requirement with a valid added version: no
error, the key present afterwards, everything else untouched, the map either
unchanged (key already present) or extended by exactly the new pair. -/
theorem add_lang_shape (st : AnalyzerState) (k : String) (r : Requirement)
    (hva : valid_version r.added = true) (hvd : valid_version st.detected_version = true) :
    ∃ st', add_language_requirement st k (some r) = .ok st' ∧
      st'.features = st.features ∧ st'.imported = st.imported ∧
      st'.modules = st.modules ∧ st'.exceptions = st.exceptions ∧
      st'.functions = st.functions ∧ st'.module_requirements = st.module_requirements ∧
      valid_version st'.detected_version = true ∧
      hasKey st'.language_requirements k = true ∧
      ((st'.language_requirements = st.language_requirements ∧
          hasKey st.language_requirements k = true) ∨
       (st'.language_requirements = st.language_requirements ++ [(k, r)] ∧
          hasKey st.language_requirements k = false)) := by
  cases hk : hasKey st.language_requirements k with
  | true =>
    refine ⟨st, ?_, rfl, rfl, rfl, rfl, rfl, rfl, hvd, hk, Or.inl ⟨rfl, rfl⟩⟩
    · simp [add_language_requirement, hk]
  | false =>
    refine ⟨{ st with
        detected_version :=
          if version_gt r.added st.detected_version then r.added else st.detected_version
        language_requirements := st.language_requirements ++ [(k, r)] },
      ?_, rfl, rfl, rfl, rfl, rfl, rfl, ?_, ?_, Or.inr ⟨rfl, rfl⟩⟩
    · simp only [add_language_requirement, hk, Bool.false_eq_true, if_false,
        update_version, VersionCtor, hva, hvd, if_true, except_bind_ok]
      split <;> rfl
    · dsimp only
      split
      · exact hva
      · exact hvd
    · dsimp only
      rw [hasKey_append]
      simp [hasKey]

theorem add_lang_step {st st' : AnalyzerState} {k : String} {r : Requirement}
    (hva : valid_version r.added = true) (hvd : valid_version st.detected_version = true)
    (h : add_language_requirement st k (some r) = .ok st') : Step st st' := by
  obtain ⟨st2, heq, h1, h2, h3, h4, h5, h6, h7, h8, h9⟩ := add_lang_shape st k r hva hvd
  rw [heq] at h
  injection h with h
  subst h
  refine ⟨h1, h2, h3, h4, h5, h6, ?_⟩
  cases h9 with
  | inl h9 => exact ⟨[], by simp [h9.1]⟩
  | inr h9 => exact ⟨[(k, r)], h9.1⟩

/-- add_language_requirement keeps the union-count invariant for any key. -/
theorem add_lang_count {st st' : AnalyzerState} {k : String} {r : Requirement}
    (hva : valid_version r.added = true) (hvd : valid_version st.detected_version = true)
    (h : add_language_requirement st k (some r) = .ok st')
    (hc : countKey st.language_requirements Constants.UNION_TYPE_HINTING ≤ 1) :
    countKey st'.language_requirements Constants.UNION_TYPE_HINTING ≤ 1 := by
  obtain ⟨st2, heq, -, -, -, -, -, -, -, -, h9⟩ := add_lang_shape st k r hva hvd
  rw [heq] at h
  injection h with h
  subst h
  cases h9 with
  | inl h9 => rw [h9.1]; exact hc
  | inr h9 =>
    rw [h9.1, countKey_append]
    by_cases hku : k = Constants.UNION_TYPE_HINTING
    · have h0 : countKey st.language_requirements Constants.UNION_TYPE_HINTING = 0 := by
        rw [← hku]
        exact (hasKey_false_iff_countKey_zero _ _).mp h9.2
      have h1 : countKey [(k, r)] Constants.UNION_TYPE_HINTING = 1 := by
        simp [countKey, hku]
      omega
    · have h1 : countKey [(k, r)] Constants.UNION_TYPE_HINTING = 0 := by
        simp [countKey, hku]
      omega

/-- The effect of add_feature_requirement for a feature whose changelog entry
resolves to a requirement with a valid added version. -/
theorem add_feature_shape {fts : ChangelogData} {f : String} {r : Requirement}
    (hf : get_requirement fts f = .ok (some r)) (hv : valid_version r.added = true)
    (st : AnalyzerState) (hg : AnnGood fts st) :
    ∃ st', add_feature_requirement st f = .ok st' ∧ AnnGood fts st' ∧ Step st st' ∧
      hasKey st'.language_requirements f = true := by
  obtain ⟨hst, hvd, hc⟩ := hg
  have hunf : add_feature_requirement st f = add_language_requirement st f (some r) := by
    rw [add_feature_requirement, hst, hf]
    rfl
  obtain ⟨st', heq, h1, h2, h3, h4, h5, h6, h7, h8, h9⟩ := add_lang_shape st f r hv hvd
  refine ⟨st', by rw [hunf, heq], ⟨by rw [h1, hst], h7, ?_⟩,
    add_lang_step hv hvd heq, h8⟩
  exact add_lang_count hv hvd heq hc

/-- find_annotations never fails under the invariant and only performs
language-map insertions; a BinOp node leaves the union-type feature recorded. -/
theorem find_ann_shape {fts : ChangelogData} {u : Requirement}
    (hU : get_requirement fts Constants.UNION_TYPE_HINTING = .ok (some u))
    (hvu : valid_version u.added = true) :
    ∀ (e : Expr) (st : AnalyzerState), AnnGood fts st →
      ∃ st' ys, find_annotations st e = .ok (st', ys) ∧ AnnGood fts st' ∧ Step st st' ∧
        (isBinop e = true →
          hasKey st'.language_requirements Constants.UNION_TYPE_HINTING = true)
  | .ename id, st, hg =>
    ⟨st, [.yname id], rfl, hg, Step.same st, by simp [isBinop]⟩
  | .eattr v a, st, hg =>
    ⟨st, [.yname (get_attribute_name (.eattr v a))], rfl, hg, Step.same st,
      by simp [isBinop]⟩
  | .ecall f args, st, hg => ⟨st, [], rfl, hg, Step.same st, by simp [isBinop]⟩
  | .etuple elts, st, hg =>
    ⟨st, elts.map .ygen, rfl, hg, Step.same st, by simp [isBinop]⟩
  | .esub v s, st, hg => by
    obtain ⟨st1, ys1, h1, g1, sp1, -⟩ := find_ann_shape hU hvu v st hg
    obtain ⟨st2, ys2, h2, g2, sp2, -⟩ := find_ann_shape hU hvu s st1 g1
    refine ⟨st2, ys1 ++ ys2, ?_, g2, sp1.trans sp2, by simp [isBinop]⟩
    rw [find_annotations, h1, except_bind_ok]
    dsimp only
    rw [h2, except_bind_ok]
  | .ebinop l r, st, hg => by
    obtain ⟨st0, h0, g0, sp0, hk0⟩ := add_feature_shape hU hvu st hg
    obtain ⟨st1, ys1, h1, g1, sp1, -⟩ := find_ann_shape hU hvu l st0 g0
    obtain ⟨st2, ys2, h2, g2, sp2, -⟩ := find_ann_shape hU hvu r st1 g1
    refine ⟨st2, ys1 ++ ys2, ?_, g2, (sp0.trans sp1).trans sp2, ?_⟩
    · rw [find_annotations, h0, except_bind_ok, h1, except_bind_ok]
      dsimp only
      rw [h2, except_bind_ok]
    · intro hb
      exact (sp1.trans sp2).hasKey_mono hk0

/-- The loop body of _check_annotation never fails under the invariant (with
a generic-type-hints entry that has an item registry), and only performs
language-map insertions. -/
theorem item_shape {fts : ChangelogData} {g : Requirement} {its : List String}
    (hG : get_requirement fts Constants.GENERIC_TYPE_HINTS = .ok (some g))
    (hits : g.items = some its) (hvg : valid_version g.added = true)
    (it : YieldItem) (st : AnalyzerState) (hg : AnnGood fts st) :
    ∃ st', check_annotation_item st it = .ok st' ∧ AnnGood fts st' ∧ Step st st' := by
  have hfeat : get_requirement st.features Constants.GENERIC_TYPE_HINTS = .ok (some g) := by
    rw [hg.1]
    exact hG
  cases it with
  | ygen e =>
    refine ⟨st, ?_, hg, Step.same st⟩
    simp only [check_annotation_item, hfeat, except_bind_ok, hits]
  | yname n =>
    cases himp : st.imported.find? (fun p => p.1 == n) with
    | none =>
      cases hcon : its.contains n with
      | true =>
        obtain ⟨st', h', g', sp', hk'⟩ := add_feature_shape hG hvg st hg
        refine ⟨st', ?_, g', sp'⟩
        simp only [check_annotation_item, hfeat, except_bind_ok, hits, himp, hcon, if_true]
        exact h'
      | false =>
        refine ⟨st, ?_, hg, Step.same st⟩
        simp only [check_annotation_item, hfeat, except_bind_ok, hits, himp, hcon,
          Bool.false_eq_true, if_false]
    | some p =>
      cases hcon : its.contains (p.2 ++ "." ++ n) with
      | true =>
        obtain ⟨st', h', g', sp', hk'⟩ := add_feature_shape hG hvg st hg
        refine ⟨st', ?_, g', sp'⟩
        simp only [check_annotation_item, hfeat, except_bind_ok, hits, himp, hcon, if_true]
        exact h'
      | false =>
        refine ⟨st, ?_, hg, Step.same st⟩
        simp only [check_annotation_item, hfeat, except_bind_ok, hits, himp, hcon,
          Bool.false_eq_true, if_false]

/-- Folding the loop body over any yielded items never fails under the
invariant. -/
theorem fold_items_shape {fts : ChangelogData} {g : Requirement} {its : List String}
    (hG : get_requirement fts Constants.GENERIC_TYPE_HINTS = .ok (some g))
    (hits : g.items = some its) (hvg : valid_version g.added = true) :
    ∀ (items : List YieldItem) (st : AnalyzerState), AnnGood fts st →
      ∃ st', items.foldlM check_annotation_item st = .ok st' ∧ AnnGood fts st' ∧ Step st st'
  | [], st, hg => ⟨st, rfl, hg, Step.same st⟩
  | it :: rest, st, hg => by
    obtain ⟨st1, h1, g1, sp1⟩ := item_shape hG hits hvg it st hg
    obtain ⟨st2, h2, g2, sp2⟩ := fold_items_shape hG hits hvg rest st1 g1
    refine ⟨st2, ?_, g2, sp1.trans sp2⟩
    rw [List.foldlM_cons, h1, except_bind_ok]
    exact h2

/-- _check_annotation never fails under the invariant; a BinOp annotation
leaves the union-type feature recorded. -/
theorem check_ann_shape {fts : ChangelogData} {u g : Requirement} {its : List String}
    (hU : get_requirement fts Constants.UNION_TYPE_HINTING = .ok (some u))
    (hvu : valid_version u.added = true)
    (hG : get_requirement fts Constants.GENERIC_TYPE_HINTS = .ok (some g))
    (hits : g.items = some its) (hvg : valid_version g.added = true)
    (e : Expr) (st : AnalyzerState) (hg : AnnGood fts st) :
    ∃ st', check_annotation_node st (some e) = .ok st' ∧ AnnGood fts st' ∧ Step st st' ∧
      (isBinop e = true →
        hasKey st'.language_requirements Constants.UNION_TYPE_HINTING = true) := by
  obtain ⟨st1, ys, h1, g1, sp1, hb1⟩ := find_ann_shape hU hvu e st hg
  obtain ⟨st2, h2, g2, sp2⟩ := fold_items_shape hG hits hvg ys st1 g1
  refine ⟨st2, ?_, g2, sp1.trans sp2, fun hb => sp2.hasKey_mono (hb1 hb)⟩
  rw [check_annotation_node, h1, except_bind_ok]
  exact h2

/-- Processing a list of annotations never fails under the invariant, and if
any of them is a BinOp the union-type feature ends up recorded. -/
theorem checkAnns_shape {fts : ChangelogData} {u g : Requirement} {its : List String}
    (hU : get_requirement fts Constants.UNION_TYPE_HINTING = .ok (some u))
    (hvu : valid_version u.added = true)
    (hG : get_requirement fts Constants.GENERIC_TYPE_HINTS = .ok (some g))
    (hits : g.items = some its) (hvg : valid_version g.added = true) :
    ∀ (l : List Expr) (st : AnalyzerState), AnnGood fts st →
      ∃ st', checkAnnotations st l = .ok st' ∧ AnnGood fts st' ∧ Step st st' ∧
        ((∃ e ∈ l, isBinop e = true) →
          hasKey st'.language_requirements Constants.UNION_TYPE_HINTING = true)
  | [], st, hg => ⟨st, rfl, hg, Step.same st, by simp⟩
  | e :: rest, st, hg => by
    obtain ⟨st1, h1, g1, sp1, hb1⟩ := check_ann_shape hU hvu hG hits hvg e st hg
    obtain ⟨st2, h2, g2, sp2, hb2⟩ := checkAnns_shape hU hvu hG hits hvg rest st1 g1
    refine ⟨st2, ?_, g2, sp1.trans sp2, ?_⟩
    · rw [checkAnnotations, h1, except_bind_ok]
      exact h2
    · rintro ⟨e0, he0, hbe0⟩
      cases he0 with
      | head => exact sp2.hasKey_mono (hb1 hbe0)
      | tail _ hmem => exact hb2 ⟨e0, hmem, hbe0⟩

/-- Claim C5: over a language changelog resolving the union-type and
generic-type-hints features (the latter with an item registry), processing any
nonempty sequence of X | Y annotations records the union-type operator exactly
once in language_requirements; moreover the BinOp branch still yields the
names of both sides into the checking loop, and a side whose name is in the
registry gets the generic-type-hints feature recorded as well. -/
theorem C5_union_annotations {fts : ChangelogData} {u g : Requirement} {its : List String}
    (hU : get_requirement fts Constants.UNION_TYPE_HINTING = .ok (some u))
    (hvu : valid_version u.added = true)
    (hG : get_requirement fts Constants.GENERIC_TYPE_HINTS = .ok (some g))
    (hits : g.items = some its) (hvg : valid_version g.added = true) :
    (∀ (binops : List (Expr × Expr)), binops ≠ [] →
      ∃ st', checkAnnotations (initState fts [] [] [])
          (binops.map (fun p => Expr.ebinop p.1 p.2)) = .ok st' ∧
        countKey st'.language_requirements Constants.UNION_TYPE_HINTING = 1) ∧
    (∀ a b : String,
      ∃ st0, add_feature_requirement (initState fts [] [] [])
          Constants.UNION_TYPE_HINTING = .ok st0 ∧
        find_annotations (initState fts [] [] []) (.ebinop (.ename a) (.ename b)) =
          .ok (st0, [.yname a, .yname b])) ∧
    (∀ a b : String, a ∈ its →
      ∃ st', check_annotation_node (initState fts [] [] [])
          (some (.ebinop (.ename a) (.ename b))) = .ok st' ∧
        hasKey st'.language_requirements Constants.UNION_TYPE_HINTING = true ∧
        hasKey st'.language_requirements Constants.GENERIC_TYPE_HINTS = true) := by
  have hg0 : AnnGood fts (initState fts [] [] []) := by
    refine ⟨rfl, by rfl, ?_⟩
    simp [initState, countKey]
  refine ⟨?_, ?_, ?_⟩
  · intro binops hne
    obtain ⟨st', h', g', sp', hb'⟩ :=
      checkAnns_shape hU hvu hG hits hvg (binops.map (fun p => Expr.ebinop p.1 p.2))
        (initState fts [] [] []) hg0
    refine ⟨st', h', ?_⟩
    have hk : hasKey st'.language_requirements Constants.UNION_TYPE_HINTING = true := by
      apply hb'
      cases binops with
      | nil => exact absurd rfl hne
      | cons p rest => exact ⟨Expr.ebinop p.1 p.2, by simp, rfl⟩
    have hge := hasKey_true_countKey_pos _ _ hk
    have hle := g'.2.2
    omega
  · intro a b
    obtain ⟨st0, h0, g0, sp0, hk0⟩ := add_feature_shape hU hvu (initState fts [] [] []) hg0
    refine ⟨st0, h0, ?_⟩
    rw [find_annotations, h0, except_bind_ok]
    rfl
  · intro a b ha
    obtain ⟨st0, h0, g0, sp0, hk0⟩ := add_feature_shape hU hvu (initState fts [] [] []) hg0
    have himp0 : st0.imported = ([] : List (String × String)) := by
      rw [sp0.2.1]
      rfl
    have hfeat0 : get_requirement st0.features Constants.GENERIC_TYPE_HINTS = .ok (some g) := by
      rw [g0.1]
      exact hG
    have hcon : its.contains a = true := List.elem_iff.mpr ha
    obtain ⟨st1, h1, g1, sp1, hk1g⟩ := add_feature_shape hG hvg st0 g0
    have hitem1 : check_annotation_item st0 (.yname a) = .ok st1 := by
      simp only [check_annotation_item, hfeat0, except_bind_ok, hits, himp0,
        List.find?_nil, hcon, if_true]
      exact h1
    obtain ⟨st2, h2, g2, sp2⟩ := item_shape hG hits hvg (.yname b) st1 g1
    refine ⟨st2, ?_, ?_, ?_⟩
    · rw [check_annotation_node, find_annotations, h0, except_bind_ok]
      show List.foldlM check_annotation_item st0 [YieldItem.yname a, YieldItem.yname b] = _
      rw [List.foldlM_cons, hitem1, except_bind_ok, List.foldlM_cons, h2, except_bind_ok]
      rfl
    · exact sp2.hasKey_mono ((sp1 : Step st0 st1).hasKey_mono hk0)
    · exact sp2.hasKey_mono hk1g

/-- The requirement the sample union-type entry resolves to. -/
def uReq : Requirement := ⟨"union type operator", some "3.10", none, none, none, none⟩

/-- The requirement the sample generic-type-hints entry resolves to. -/
def gReq : Requirement :=
  ⟨"type hinting generics", some "3.9", none, none, none,
   some ["dict", "frozenset", "list", "set", "tuple", "type"]⟩

/-- Witness for C5: two union annotations over the sample changelog leave
exactly one union-type record. -/
theorem C5_union_annotations_witness :
    (checkAnnotations (initState sampleFeatures [] [] [])
        ([((Expr.ename "list"), (Expr.ename "str")),
          ((Expr.ename "int"), (Expr.ename "str"))].map
          (fun p => Expr.ebinop p.1 p.2))).map
        (fun s => countKey s.language_requirements Constants.UNION_TYPE_HINTING) =
      .ok 1 := by
  obtain ⟨st', h1, h2⟩ :=
    (@C5_union_annotations sampleFeatures uReq gReq
        ["dict", "frozenset", "list", "set", "tuple", "type"] rfl rfl rfl rfl rfl).1
      [((Expr.ename "list"), (Expr.ename "str")), ((Expr.ename "int"), (Expr.ename "str"))]
      (by simp)
  rw [h1]
  exact congrArg Except.ok h2

/-- Witness for C2: inserting a fresh feature with added version 3.8 into the
sample analyzer records it and raises the detected version. -/
theorem C2_accumulation_policy_witness :
    hasKey st0.language_requirements "f" = false ∧
    valid_version (some "3.8") = true ∧
    valid_version st0.detected_version = true ∧
    add_language_requirement st0 "f" (some ⟨"f", some "3.8", none, none, none, none⟩) =
      .ok { st0 with
        detected_version :=
          if version_gt (some "3.8") st0.detected_version then some "3.8"
          else st0.detected_version
        language_requirements := st0.language_requirements ++
          [("f", ⟨"f", some "3.8", none, none, none, none⟩)] } :=
  ⟨rfl, rfl, rfl,
   C2_accumulation_policy.2.2.2.1 st0 "f" ⟨"f", some "3.8", none, none, none, none⟩ rfl rfl rfl⟩

/-! ## Claim C8: the changelog search -/


theorem matchToks_star (s : List Char) : matchToks [Tok.star] s = true := by
  induction s with
  | nil => simp [matchToks]
  | cons c cs ih => simp [matchToks, ih]

theorem fnmatch_star (name : String) : fnmatch name "*" = true := by
  show matchToks (translateToks ['*']) name.data = true
  have ht : translateToks ['*'] = [Tok.star] := by simp [translateToks]
  rw [ht]
  exact matchToks_star name.data

theorem match_os_prefix (l : List Char) :
    matchToks [Tok.lit 'o', Tok.lit 's', Tok.lit '.', Tok.star] l =
      List.isPrefixOf ['o', 's', '.'] l := by
  cases l with
  | nil => simp [matchToks, List.isPrefixOf]
  | cons c1 l1 =>
    by_cases h1 : ('o' : Char) = c1
    · subst h1
      cases l1 with
      | nil => simp [matchToks, List.isPrefixOf]
      | cons c2 l2 =>
        by_cases h2 : ('s' : Char) = c2
        · subst h2
          cases l2 with
          | nil => simp [matchToks, List.isPrefixOf]
          | cons c3 l3 =>
            by_cases h3 : ('.' : Char) = c3
            · subst h3
              simp [matchToks, List.isPrefixOf, matchToks_star l3]
            · have hb : ('.' == c3) = false := beq_eq_false_iff_ne.mpr h3
              simp [matchToks, List.isPrefixOf, hb]
        · have hb : ('s' == c2) = false := beq_eq_false_iff_ne.mpr h2
          simp [matchToks, List.isPrefixOf, hb]
    · have hb : ('o' == c1) = false := beq_eq_false_iff_ne.mpr h1
      simp [matchToks, List.isPrefixOf, hb]

theorem fnmatch_os_star (name : String) : fnmatch name "os.*" = pyStartswith name "os." := by
  show matchToks (translateToks ['o', 's', '.', '*']) name.data =
    List.isPrefixOf ['o', 's', '.'] name.data
  have ht : translateToks ['o', 's', '.', '*'] =
      [Tok.lit 'o', Tok.lit 's', Tok.lit '.', Tok.star] := by
    simp [translateToks]
  rw [ht]
  exact match_os_prefix name.data

/-- Total projection of get_requirement used to state search results. -/
def getReqD (cl : ChangelogData) (n : String) : Option Requirement :=
  match get_requirement cl n with
  | .ok r => r
  | .error _ => none

/-- The combined row filter of find_changes. -/
def keepRow (pat : String) (ver act : Option String) (p : String × Entry) : Bool :=
  fnmatch p.1 pat && !actionSkip p.2 act && !versionSkip p.2 ver

theorem find_fold (cl : ChangelogData) (pat : String) (ver act : Option String) :
    ∀ (rows : List (String × Entry)) (acc : List (String × Option Requirement)),
      (∀ p ∈ rows, ∃ r, get_requirement cl p.1 = .ok r) →
      rows.foldlM (fun results p =>
        if !(fnmatch p.1 pat) then pure results
        else if actionSkip p.2 act then pure results
        else if versionSkip p.2 ver then pure results
        else do
          let r ← get_requirement cl p.1
          pure (dictSet results p.1 r)) acc =
      .ok ((rows.filter (keepRow pat ver act)).foldl
        (fun res p => dictSet res p.1 (getReqD cl p.1)) acc)
  | [], acc, hwf => rfl
  | p :: rows, acc, hwf => by
    obtain ⟨r, hr⟩ := hwf p (by simp)
    have hwf2 : ∀ q ∈ rows, ∃ r, get_requirement cl q.1 = .ok r :=
      fun q hq => hwf q (by simp [hq])
    rw [List.foldlM_cons]
    cases hf : fnmatch p.1 pat with
    | false =>
      have hkeep : keepRow pat ver act p = false := by simp [keepRow, hf]
      rw [List.filter_cons_of_neg (by simp [hkeep])]
      simp only [hf, Bool.not_false, if_true, pure_bind]
      exact find_fold cl pat ver act rows acc hwf2
    | true =>
      cases ha : actionSkip p.2 act with
      | true =>
        have hkeep : keepRow pat ver act p = false := by simp [keepRow, ha]
        rw [List.filter_cons_of_neg (by simp [hkeep])]
        simp only [hf, Bool.not_true, Bool.false_eq_true, if_false, ha, if_true, pure_bind]
        exact find_fold cl pat ver act rows acc hwf2
      | false =>
        cases hv : versionSkip p.2 ver with
        | true =>
          have hkeep : keepRow pat ver act p = false := by simp [keepRow, hv]
          rw [List.filter_cons_of_neg (by simp [hkeep])]
          simp only [hf, Bool.not_true, Bool.false_eq_true, if_false, ha, hv, if_true,
            pure_bind]
          exact find_fold cl pat ver act rows acc hwf2
        | false =>
          have hkeep : keepRow pat ver act p = true := by simp [keepRow, hf, ha, hv]
          rw [List.filter_cons_of_pos (by simp [hkeep])]
          simp only [hf, Bool.not_true, Bool.false_eq_true, if_false, ha, hv, hr,
            bind_assoc, except_bind_ok, pure_bind, List.foldl_cons]
          have hrd : getReqD cl p.1 = r := by rw [getReqD, hr]
          rw [hrd]
          exact find_fold cl pat ver act rows (dictSet acc p.1 r) hwf2

theorem foldl_dictSet_append {α : Type} :
    ∀ (rows : List (String × Entry)) (f : String → α) (acc : List (String × α)),
      (∀ p ∈ rows, hasKey acc p.1 = false) →
      (rows.map Prod.fst).Nodup →
      rows.foldl (fun res p => dictSet res p.1 (f p.1)) acc =
        acc ++ rows.map (fun p => (p.1, f p.1))
  | [], f, acc, hdisj, hnd => by simp
  | p :: rows, f, acc, hdisj, hnd => by
    have hkey : hasKey acc p.1 = false := hdisj p (by simp)
    have hset : dictSet acc p.1 (f p.1) = acc ++ [(p.1, f p.1)] := by
      rw [dictSet]
      rw [show acc.any (fun q => q.1 == p.1) = hasKey acc p.1 from rfl, hkey]
      simp
    rw [List.foldl_cons, hset]
    rw [List.map_cons] at hnd
    obtain ⟨hnotin, hnd2⟩ := List.nodup_cons.mp hnd
    have hdisj2 : ∀ q ∈ rows, hasKey (acc ++ [(p.1, f p.1)]) q.1 = false := by
      intro q hq
      rw [hasKey_append]
      have h1 : hasKey acc q.1 = false := hdisj q (by simp [hq])
      have h2 : hasKey [(p.1, f p.1)] q.1 = false := by
        simp [hasKey]
        intro hqe
        apply hnotin
        rw [hqe]
        exact List.mem_map_of_mem Prod.fst hq
      rw [h1, h2]
      rfl
    rw [foldl_dictSet_append rows f (acc ++ [(p.1, f p.1)]) hdisj2 hnd2]
    simp

def entC8foo : Entry := [("name", .jstr "foo"), ("added", .jstr "3.5"), ("notes", .jstr "3.9")]
def entC8bar : Entry := [("name", .jstr "bar"), ("added", .jstr "3.5"), ("removed", .jnull)]
def clC8 : ChangelogData := [("foo", entC8foo), ("bar", entC8bar)]

/-- Counterexample to claim C8: the version filter matches the exact version
string against every value of the entry, not only the three version fields
(foo is returned for version 3.9 though only its notes say 3.9), and the
action filter tests key presence, not populated fields (bar is returned for
the removed action though its removed value is null, i.e. unpopulated). -/
theorem C8_counterexample :
    (find_changes clC8 "*" (some "3.9") none).map (fun l => l.map Prod.fst) = .ok ["foo"] ∧
    mkRequirement entC8foo = .ok ⟨"foo", some "3.5", none, none, some "3.9", none⟩ ∧
    (find_changes clC8 "*" none (some "removed")).map (fun l => l.map Prod.fst) = .ok ["bar"] ∧
    mkRequirement entC8bar = .ok ⟨"bar", some "3.5", none, none, none, none⟩ := by
  refine ⟨?_, rfl, ?_, rfl⟩
  · simp only [find_changes, clC8, List.foldlM, fnmatch_star, Bool.not_true,
      Bool.false_eq_true, if_false]
    rfl
  · simp only [find_changes, clC8, List.foldlM, fnmatch_star, Bool.not_true,
      Bool.false_eq_true, if_false]
    rfl

/-- Amended claim C8: the search returns exactly the entries whose name
matches the glob pattern (for os.* precisely the names starting with os., for
* every name), restricted by the action filter to entries that contain the
action as a key, and by the version filter to entries having the exact
version string among any of their field values; each selected name maps to
its get_requirement result, and the changelog itself is left untouched (the
model is pure, the fold only reads it). -/
theorem C8_search_characterization :
    (∀ name, fnmatch name "*" = true) ∧
    (∀ name, fnmatch name "os.*" = pyStartswith name "os.") ∧
    (∀ (cl : ChangelogData) (pat : String) (ver act : Option String),
      (∀ p ∈ cl, ∃ r, get_requirement cl p.1 = .ok r) →
      (cl.map Prod.fst).Nodup →
      find_changes cl pat ver act =
        .ok ((cl.filter (keepRow pat ver act)).map (fun p => (p.1, getReqD cl p.1)))) := by
  refine ⟨fnmatch_star, fnmatch_os_star, ?_⟩
  intro cl pat ver act hwf hnd
  have h1 := find_fold cl pat ver act cl [] hwf
  have hsub : List.Sublist ((cl.filter (keepRow pat ver act)).map Prod.fst)
      (cl.map Prod.fst) :=
    (List.filter_sublist _).map _
  have hnd2 : ((cl.filter (keepRow pat ver act)).map Prod.fst).Nodup :=
    List.Nodup.sublist hsub hnd
  have h2 := foldl_dictSet_append (cl.filter (keepRow pat ver act)) (getReqD cl) []
    (fun p _ => rfl) hnd2
  show cl.foldlM _ [] = _
  rw [h1, h2]
  simp

/-- Witness for C8: the characterization applied to the concrete two-row
changelog. -/
theorem C8_search_characterization_witness :
    find_changes clC8 "*" (some "3.9") none =
      .ok ((clC8.filter (keepRow "*" (some "3.9") none)).map
        (fun p => (p.1, getReqD clC8 p.1))) := by
  have hwf : ∀ p ∈ clC8, ∃ r, get_requirement clC8 p.1 = .ok r := by
    intro p hp
    simp [clC8] at hp
    rcases hp with rfl | rfl
    · exact ⟨_, rfl⟩
    · exact ⟨_, rfl⟩
  exact C8_search_characterization.2.2 clC8 "*" (some "3.9") none hwf (by decide)

/-! ## Claim C9: report sorting -/


def raC9 : Requirement := ⟨"a", some "3.5", some "3.8", none, none, none⟩
def rbC9 : Requirement := ⟨"b", some "3.5", none, none, none, none⟩

/-- Counterexample to claim C9: two features with the same added version are
not ordered by feature name; the comparison consults deprecated (and removed)
first, so feature b (no deprecated version, which sorts below every concrete
version) is printed before feature a despite a < b. -/
theorem C9_counterexample :
    reportSorted [("a", raC9), ("b", rbC9)] = [("b", rbC9), ("a", raC9)] ∧
    raC9.added = rbC9.added ∧
    ("a" : String) < "b" := by
  refine ⟨by rfl, rfl, ?_⟩
  rw [String.lt_iff_toList_lt]
  decide

/-- Lexicographic comparison of tuple lists, following the words of the
amended claim. -/
def listLexLt : List (List Int) → List (List Int) → Bool
  | a :: as, b :: bs =>
    if tupleLt a b then true else if tupleLt b a then false else listLexLt as bs
  | _, _ => false

/-- The sort key ordering as the amended claim words it: primarily the version
triple (added, deprecated, removed) compared lexicographically as tuples, then
the requirement name, and the feature key only for fully identical
requirements. -/
def specKeyLt (a b : String × Requirement) : Bool :=
  if a.2.versions.map as_tuple = b.2.versions.map as_tuple then
    if a.2.name = b.2.name then
      if reqEq a.2 b.2 then decide (a.1 < b.1) else false
    else decide (a.2.name < b.2.name)
  else listLexLt (a.2.versions.map as_tuple) (b.2.versions.map as_tuple)

theorem tupleLt_self (t : List Int) : tupleLt t t = false := by
  induction t with
  | nil => rfl
  | cons x xs ih => simp [tupleLt, ih]

theorem tupleLt_trichotomy (a b : List Int) :
    tupleLt a b = true ∨ tupleLt b a = true ∨ a = b := by
  induction a generalizing b with
  | nil =>
    cases b with
    | nil => exact Or.inr (Or.inr rfl)
    | cons y ys => exact Or.inl rfl
  | cons x xs ih =>
    cases b with
    | nil => exact Or.inr (Or.inl rfl)
    | cons y ys =>
      rcases lt_trichotomy x y with h | h | h
      · exact Or.inl (by simp [tupleLt, h])
      · subst h
        rcases ih ys with h2 | h2 | h2
        · exact Or.inl (by simp [tupleLt, tupleLt_self, h2, lt_irrefl])
        · exact Or.inr (Or.inl (by simp [tupleLt, tupleLt_self, h2, lt_irrefl]))
        · exact Or.inr (Or.inr (by rw [h2]))
      · exact Or.inr (Or.inl (by simp [tupleLt, h]))

theorem reqLtAux_spec : ∀ vs ws : List (Option String), vs.length = ws.length →
    (vs.map as_tuple = ws.map as_tuple → reqLtAux vs ws = none) ∧
    (vs.map as_tuple ≠ ws.map as_tuple →
      reqLtAux vs ws = some (listLexLt (vs.map as_tuple) (ws.map as_tuple)))
  | [], [], _ => by simp [reqLtAux]
  | [], w :: ws, h => by simp at h
  | v :: vs, [], h => by simp at h
  | v :: vs, w :: ws, h => by
    have hlen : vs.length = ws.length := by simpa using h
    have ih := reqLtAux_spec vs ws hlen
    constructor
    · intro heq
      simp only [List.map_cons, List.cons.injEq] at heq
      rw [reqLtAux, version_lt, version_gt, version_lt, heq.1, tupleLt_self]
      simp only [Bool.false_eq_true, if_false]
      exact ih.1 heq.2
    · intro hne
      by_cases h1 : tupleLt (as_tuple v) (as_tuple w) = true
      · rw [reqLtAux, version_lt, h1]
        simp only [if_true, List.map_cons, listLexLt, h1]
      · by_cases h2 : tupleLt (as_tuple w) (as_tuple v) = true
        · rw [reqLtAux, version_lt, version_gt, version_lt]
          rw [Bool.not_eq_true] at h1
          rw [h1, h2]
          simp only [Bool.false_eq_true, if_false, if_true, List.map_cons, listLexLt, h1, h2]
        · have heq : as_tuple v = as_tuple w := by
            rcases tupleLt_trichotomy (as_tuple v) (as_tuple w) with h | h | h
            · exact absurd h h1
            · exact absurd h h2
            · exact h
          have hne2 : vs.map as_tuple ≠ ws.map as_tuple := by
            intro hx
            exact hne (by simp [heq, hx])
          rw [Bool.not_eq_true] at h1 h2
          rw [reqLtAux, version_lt, version_gt, version_lt, h1, h2]
          simp only [Bool.false_eq_true, if_false]
          rw [ih.2 hne2]
          simp only [List.map_cons, listLexLt, heq, tupleLt_self, Bool.false_eq_true,
            if_false]

/-- Claim C9 amended: the comparison Analyzer.report sorts by.  On requirement
pairs without string-representation collisions, the key comparison orders
first by the version triple (added, deprecated, removed) compared
lexicographically as tuples, then by the requirement name, and consults the
feature key only when the two requirements are fully identical. -/
theorem C9_sort_comparator (a b : String × Requirement)
    (hcoll : reqEq a.2 b.2 = true → a.2 = b.2) :
    keyLt a b = specKeyLt a b := by
  cases he : reqEq a.2 b.2 with
  | true =>
    have heq := hcoll he
    rw [keyLt, he]
    simp only [if_true]
    rw [specKeyLt, heq]
    simp only [reqEq, beq_self_eq_true, if_true, if_pos rfl]
    cases hab : a.1 == b.1 with
    | true =>
      simp only [hab, if_true]
      have h3 : a.1 = b.1 := eq_of_beq hab
      rw [h3]
      simp
    | false => simp [hab]
  | false =>
    rw [keyLt, he]
    simp only [Bool.false_eq_true, if_false]
    rw [reqLt, specKeyLt]
    have hlen : a.2.versions.length = b.2.versions.length := by
      simp [Requirement.versions]
    by_cases hv : a.2.versions.map as_tuple = b.2.versions.map as_tuple
    · rw [if_pos hv, (reqLtAux_spec a.2.versions b.2.versions hlen).1 hv]
      by_cases hn : a.2.name = b.2.name
      · rw [if_pos hn]
        simp only [he, Bool.false_eq_true, if_false]
        rw [hn]
        simp
      · rw [if_neg hn]
    · rw [if_neg hv, (reqLtAux_spec a.2.versions b.2.versions hlen).2 hv]

/-- Witness for C9 amended: the comparator equivalence at the concrete pair
from the counterexample. -/
theorem C9_sort_comparator_witness :
    keyLt ("a", raC9) ("b", rbC9) = specKeyLt ("a", raC9) ("b", rbC9) :=
  C9_sort_comparator ("a", raC9) ("b", rbC9) (by decide)

end DetectVersion
